import Mathlib

/-!
Verification development for the call-session bridge of the voice-call
assistant repository.  The definitions below are a shallow embedding of the
media-stream WebSocket handler of `admin.js` (the realtime, recording-aware
bridge variant) together with the data-access helpers it calls
(`standardizePhoneNumber`, `addConversation`, `updateLeadEmail`, `getLead`
from the database module).

Modelling conventions:
* JS strings are Lean `String`s; regular-expression character classes are the
  ASCII classes the source regexes use (`\w`, `[A-Za-z0-9._%+-]`, ...).
* audio `Buffer`s are modelled as the list of appended base64 chunks, in
  order (the source concatenates the decoded bytes of exactly these chunks).
* `setTimeout`/`clearTimeout` for the silence timer is modelled by a list of
  timer records carrying an absolute deadline and an `active` flag;
  `clearTimeout` deactivates, and a timer fires (runs its callback once)
  exactly when it is still active at its deadline.
* every call into an external collaborator (database writes, websocket
  sends, recording, transcription, deferred prompts) is recorded as an
  element of `Effect`, emitted in program order; the database itself is
  abstracted by the `leadExists` predicate of `Env` (whether `getLead` finds
  a row for a canonical phone number).
-/

namespace VoiceBridge

/-- `standardizePhoneNumber` from the database module: strip every non-digit
character; exactly 11 digits starting with `1` give `+<digits>`, exactly 10
digits give `+1<digits>`, anything else gives `null`.  The JS falsy guard
`if (!number)` corresponds to the empty string here (`standardizePhoneNumberOpt`
adds the `null` argument case). -/
def standardizePhoneNumber (number : String) : Option String :=
  if number = "" then none
  else
    let digitsOnly := number.data.filter Char.isDigit
    if digitsOnly.length = 11 ∧ digitsOnly.head? = some '1' then
      some (String.mk ('+' :: digitsOnly))
    else if digitsOnly.length = 10 then
      some (String.mk ('+' :: '1' :: digitsOnly))
    else none

/-- `standardizePhoneNumber` applied to a possibly-null argument. -/
def standardizePhoneNumberOpt : Option String → Option String
  | none => none
  | some s => standardizePhoneNumber s

/-! ### The email-extraction regex

`admin.js` extracts an email from a completed AI turn with
`/\b[A-Za-z0-9._%+-]+@[A-Za-z0-9.-]+\.[A-Z|a-z]{2,}\b/i` and `String.match`
(first match).  The matcher below reproduces JS semantics: leftmost start
position wins, and at one start position the greedy quantifiers backtrack
from the longest run downwards (`+` and `{2,}` give up one character at a
time, later quantifiers first). -/

/-- JS `\w` (ASCII): letters, digits, underscore. -/
def isWordChar (c : Char) : Bool := c.isAlpha || c.isDigit || c == '_'

/-- The local-part class `[A-Za-z0-9._%+-]`. -/
def isLocalChar (c : Char) : Bool :=
  c.isAlpha || c.isDigit || c == '.' || c == '_' || c == '%' || c == '+' || c == '-'

/-- The domain class `[A-Za-z0-9.-]`. -/
def isDomainChar (c : Char) : Bool := c.isAlpha || c.isDigit || c == '.' || c == '-'

/-- The top-level-label class `[A-Z|a-z]` (note: the source class literally
contains `|`). -/
def isTldChar (c : Char) : Bool := c.isAlpha || c == '|'

/-- Whether the character at index `i` exists and is a word character. -/
def wordAt (cs : List Char) (i : Nat) : Bool :=
  match cs.drop i with
  | [] => false
  | c :: _ => isWordChar c

/-- Whether the character before index `i` exists and is a word character. -/
def prevWordAt (cs : List Char) : Nat → Bool
  | 0 => false
  | j + 1 => wordAt cs j

/-- JS `\b` at position `i`: the wordness changes between `i - 1` and `i`
(out of range counts as non-word). -/
def boundaryAt (cs : List Char) (i : Nat) : Bool := prevWordAt cs i != wordAt cs i

/-- Length of the maximal run of characters satisfying `p` at the front. -/
def runLen (p : Char → Bool) : List Char → Nat
  | [] => 0
  | c :: cs => if p c then runLen p cs + 1 else 0

/-- Try `f n`, `f (n-1)`, ..., `f 1`, returning the first `some` (the
backtracking order of a greedy `+` quantifier). -/
def searchDown {α : Type} (f : Nat → Option α) : Nat → Option α
  | 0 => none
  | n + 1 =>
    match f (n + 1) with
    | some a => some a
    | none => searchDown f n

/-- Backtracking over the `[A-Z|a-z]{2,}\b` tail: `rest3` is the text after
the literal dot, `i`, `l`, `d` the match start and the committed local-part
and domain lengths.  A success returns the match start and total length. -/
def tryTld (cs : List Char) (i l d : Nat) (rest3 : List Char) : Option (Nat × Nat) :=
  searchDown
    (fun t =>
      if 2 ≤ t ∧ boundaryAt cs (i + (l + 1 + d + 1 + t)) = true then
        some (i, l + 1 + d + 1 + t)
      else none)
    (runLen isTldChar rest3)

/-- Backtracking over `[A-Za-z0-9.-]+\.` : `rest2` is the text after the `@`. -/
def tryDomain (cs : List Char) (i l : Nat) (rest2 : List Char) : Option (Nat × Nat) :=
  searchDown
    (fun d =>
      match rest2.drop d with
      | [] => none
      | c :: rest3 => if c = '.' then tryTld cs i l d rest3 else none)
    (runLen isDomainChar rest2)

/-- One match attempt of the email regex anchored at position `i`. -/
def tryEmailAt (cs : List Char) (i : Nat) : Option (Nat × Nat) :=
  if boundaryAt cs i then
    searchDown
      (fun l =>
        match (cs.drop i).drop l with
        | [] => none
        | c :: rest2 => if c = '@' then tryDomain cs i l rest2 else none)
      (runLen isLocalChar (cs.drop i))
  else none

/-- Scan the given start positions left to right, returning the first match. -/
def scanFrom (cs : List Char) : List Nat → Option (Nat × Nat)
  | [] => none
  | i :: rest =>
    match tryEmailAt cs i with
    | some r => some r
    | none => scanFrom cs rest

/-- The (start, length) of the first match of the email regex, as JS
`String.match` without the `g` flag returns it. -/
def firstEmailSpan (cs : List Char) : Option (Nat × Nat) :=
  scanFrom cs (List.range (cs.length + 1))

/-- `aiResponse.match(emailRegex)` of `admin.js`: the text of the first
match, or `null`. -/
def emailMatchJS (s : String) : Option String :=
  (firstEmailSpan s.data).map fun p => String.mk ((s.data.drop p.1).take p.2)

/-- Whether a character list is, in its entirety, one email-shaped token:
`[A-Za-z0-9._%+-]+ @ [A-Za-z0-9.-]+ . [A-Z|a-z]{2,}`.  The split is
deterministic: the local part ends at the first non-local character (which
must be the `@`), and the top-level label is the maximal `isTldChar` run at
the end (the preceding character must be the literal dot). -/
def emailExact (xs : List Char) : Bool :=
  if (xs.takeWhile isLocalChar).length = 0 then false
  else
    match xs.drop (xs.takeWhile isLocalChar).length with
    | [] => false
    | c :: rest2 =>
      if c = '@' then
        if (rest2.reverse.takeWhile isTldChar).length < 2 then false
        else
          match rest2.reverse.drop (rest2.reverse.takeWhile isTldChar).length with
          | [] => false
          | c2 :: rd => if c2 = '.' then !rd.isEmpty && rd.all isDomainChar else false
      else false

/-- The span `[i, i + len)` of `cs` is an occurrence of the email regex:
word boundaries on both sides and an email-shaped body. -/
def spanIsEmail (cs : List Char) (i len : Nat) : Bool :=
  boundaryAt cs i && boundaryAt cs (i + len) && decide (i + len ≤ cs.length) &&
    emailExact ((cs.drop i).take len)

/-- Every occurrence (start, length) of the email regex in `cs`. -/
def emailOccurrences (cs : List Char) : List (Nat × Nat) :=
  (List.range (cs.length + 1)).flatMap fun i =>
    (List.range (cs.length + 1)).filterMap fun len =>
      if spanIsEmail cs i len then some (i, len) else none

/-- The decomposition a span must admit to match the email regex body. -/
def EmailShape (xs : List Char) : Prop :=
  ∃ A B C : List Char,
    xs = A ++ '@' :: (B ++ '.' :: C) ∧
    A ≠ [] ∧ A.all isLocalChar = true ∧
    B ≠ [] ∧ B.all isDomainChar = true ∧
    2 ≤ C.length ∧ C.all isTldChar = true

/-! ### `String.includes` and the `addConversation` email regex

`addConversation` in the database module runs its own extraction on
AI-authored content: `content.includes("email:")` (case-sensitive) guards a
match of `/email:\s*([^\s]+@[^\s]+)/i`, whose first capture group is passed
to `updateLeadEmail`. -/

/-- Does the second list occur as a contiguous segment of the first
argument list?  (`needle`, then the haystack.) -/
def containsSeg (needle : List Char) : List Char → Bool
  | [] => needle.isEmpty
  | c :: rest => needle.isPrefixOf (c :: rest) || containsSeg needle rest

/-- JS `hay.includes(needle)` (case-sensitive). -/
def strIncludes (hay needle : String) : Bool := containsSeg needle.data hay.data

/-- Case-insensitive (ASCII, via `Char.toLower`) list prefix test, for the
literal part of a `/.../i` regex. -/
def ciStartsWith : List Char → List Char → Bool
  | [], _ => true
  | _ :: _, [] => false
  | p :: ps, h :: hs => (p.toLower == h.toLower) && ciStartsWith ps hs

/-- JS `\s`, restricted to the ASCII whitespace characters. -/
def isSpaceChar (c : Char) : Bool :=
  c == ' ' || c == '\t' || c == '\n' || c == '\r' || c == '\x0b' || c == '\x0c'

/-- The literal part of `/email:\s*.../i`. -/
def emailColonPat : List Char := ['e', 'm', 'a', 'i', 'l', ':']

/-- After `\s*` (greedy, deterministic here since `[^\s]` cannot match a
space), the first whitespace-delimited token. -/
def tokenAfter (cs : List Char) : List Char :=
  (cs.dropWhile isSpaceChar).takeWhile fun c => !isSpaceChar c

/-- `([^\s]+@[^\s]+)` matches within the token exactly when some `@` sits at
an inner position; the capture group is then the whole token (the trailing
`[^\s]+` is greedy and the token has no whitespace). -/
def tokenInnerAt (tok : List Char) : Bool :=
  ((tok.drop 1).dropLast).any fun c => c == '@'

/-- Leftmost-match scan of `/email:\s*([^\s]+@[^\s]+)/i`, returning the first
capture group. -/
def emailColonScan : List Char → Option (List Char)
  | [] => none
  | c :: rest =>
    if ciStartsWith emailColonPat (c :: rest) then
      let tok := tokenAfter ((c :: rest).drop 6)
      if tokenInnerAt tok then some tok else emailColonScan rest
    else emailColonScan rest

/-- `content.match(/email:\s*([^\s]+@[^\s]+)/i)` of `addConversation`, as the
first capture group. -/
def emailColonMatchJS (content : String) : Option String :=
  (emailColonScan content.data).map String.mk

/-! ### The bridge state, events and effects -/

/-- Messages sent on the OpenAI realtime socket. -/
inductive AiMsg where
  | sessionUpdate
  | audioAppend (payload : String)
  | speechStopped
  | inputTextAppend (text : String)
  deriving DecidableEq

/-- Messages sent back on the telephony media-stream connection. -/
inductive TwMsg where
  | media (sid : Option String) (payload : String)
  | mark (sid : String)
  | tts (sid : Option String) (text : String)
  deriving DecidableEq

/-- One observable side effect of the bridge, in program order.
`addConversationCall` records the handler invoking `addConversation`;
`insertConversation` / `touchLead` / `updateLeadEmailCall` record the
database operations performed inside the data-access layer;
`saveRecordingCall` / `transcribeCall` stand for the recording handoff and
the transcription side effect of the `stop` branch. -/
inductive Effect where
  | aiSend (m : AiMsg)
  | twSend (m : TwMsg)
  | addConversationCall (phoneNumber : Option String) (content : String) (isAiResponse : Bool)
  | insertConversation (phoneNumber content : String) (isAiResponse : Bool)
  | touchLead (phoneNumber : String)
  | updateLeadEmailCall (phoneNumber email : String)
  | getLeadCall (phoneNumber : String)
  | updateLeadStatusCall (phoneNumber : Option String) (status : String)
  | saveRecordingCall (sid : Option String)
  | transcribeCall (sid : Option String)
  | scheduleContinue
  deriving DecidableEq

/-- One `setTimeout` created by `promptAIIfSilent`: `deadline` is the
absolute fire time, `active` is false once `clearTimeout` ran. -/
structure SilenceTimer where
  id : Nat
  deadline : Nat
  active : Bool
  deriving DecidableEq

/-- The per-connection state of the `admin.js` media-stream handler (the
closure variables of the WebSocket route).  `responseStartTimestamp` is the
source's `responseStartTimestampTwilio`. -/
structure Session where
  streamSid : Option String
  customerNumber : Option String
  latestMediaTimestamp : Nat
  lastAssistantItem : Option String
  markQueue : List String
  responseStartTimestamp : Option Nat
  accumulatedText : String
  customerNumbers : List (String × Option String)
  silenceTimers : List SilenceTimer
  silenceHandle : Option Nat
  nextTimerId : Nat
  incomingAudioBuffer : List String
  outgoingAudioBuffer : List String
  deriving DecidableEq

/-- The ambient world of one event: whether the OpenAI socket is open
(`readyState === OPEN`), which canonical phone numbers have a lead row
(`getLead` finds one), and the current time (for `setTimeout`). -/
structure Env where
  aiOpen : Bool
  leadExists : String → Bool
  now : Nat

/-- The closure variables as initialized when a client connects. -/
def initialSession : Session :=
  { streamSid := none, customerNumber := none, latestMediaTimestamp := 0,
    lastAssistantItem := none, markQueue := [], responseStartTimestamp := none,
    accumulatedText := "", customerNumbers := [], silenceTimers := [],
    silenceHandle := none, nextTimerId := 0, incomingAudioBuffer := [],
    outgoingAudioBuffer := [] }

/-- The default `timeoutMs` of `promptAIIfSilent`. -/
def silenceTimeoutMs : Nat := 10000

/-- `promptAIIfSilent`: `clearTimeout` of the timer the handle points to (if
any), then `setTimeout` of a fresh timer due in `silenceTimeoutMs`. -/
def promptAIIfSilent (now : Nat) (s : Session) : Session :=
  let cleared :=
    match s.silenceHandle with
    | some h => s.silenceTimers.map fun t => if t.id = h then { t with active := false } else t
    | none => s.silenceTimers
  { s with
    silenceTimers := cleared ++ [⟨s.nextTimerId, now + silenceTimeoutMs, true⟩],
    silenceHandle := some s.nextTimerId,
    nextTimerId := s.nextTimerId + 1 }

/-- `getLead` reduced to whether a row is found: it standardizes its argument
and looks the canonical number up. -/
def getLeadFound (leadExists : String → Bool) (phoneNumber : String) : Bool :=
  match standardizePhoneNumber phoneNumber with
  | some p => leadExists p
  | none => false

/-- The effects of `addConversation(phoneNumber, content, isAiResponse)` from
the database module: standardize (abort on failure), look the lead up (abort
when absent), skip placeholder user-audio content, otherwise insert the
conversation row and touch the lead, and — for AI content containing the
`email:` marker — run the secondary email extraction and call
`updateLeadEmail` on its capture group. -/
def addConversationEffects (leadExists : String → Bool) (phoneNumber : Option String)
    (content : String) (isAiResponse : Bool) : List Effect :=
  match standardizePhoneNumberOpt phoneNumber with
  | none => []
  | some sp =>
    if getLeadFound leadExists sp then
      if content ≠ "User audio received" ∨ isAiResponse = true then
        Effect.insertConversation sp content isAiResponse :: Effect.touchLead sp ::
          (if isAiResponse = true ∧ strIncludes content "email:" = true then
            match emailColonMatchJS content with
            | some em => [Effect.updateLeadEmailCall sp em]
            | none => []
          else [])
      else []
    else []

/-- Events arriving on the OpenAI realtime socket (the fields the handler
reads). -/
inductive OpenAiEvent where
  | textDelta (delta : String)
  | contentDone
  | audioDelta (delta : String) (itemId : Option String)
  | otherEvent
  deriving DecidableEq

/-- Events arriving on the telephony media-stream connection (the fields the
handler reads; `sid` is the top-level `streamSid` of the frame). -/
inductive TelephonyEvent where
  | start (sid : String) (customerNumber : Option String)
  | media (sid : String) (timestamp : Nat) (payload : String)
      (track : Option String) (chunk : Option String)
  | mark (sid : String)
  | stop (sid : String)
  | otherEvent (name : String)
  deriving DecidableEq

/-- JS truthiness of the nullable numeric `responseStartTimestampTwilio`:
`null` and `0` are falsy. -/
def jsFalsyNat : Option Nat → Bool
  | none => true
  | some n => n == 0

/-- The `openAiWs.on("message")` handler of `admin.js`, as a state transition
plus emitted effects. -/
def processOpenAiEvent (env : Env) (s : Session) (e : OpenAiEvent) :
    Session × List Effect :=
  match e with
  | .textDelta delta =>
    if delta ≠ "" then ({ s with accumulatedText := s.accumulatedText ++ delta }, [])
    else (s, [])
  | .contentDone =>
    let aiResponse := s.accumulatedText
    let s1 := { s with accumulatedText := "" }
    let dbEffs :=
      match s.customerNumber with
      | some cn =>
        Effect.addConversationCall (some cn) aiResponse true ::
          (addConversationEffects env.leadExists (some cn) aiResponse true ++
            (match emailMatchJS aiResponse with
             | some email => [Effect.updateLeadEmailCall cn email]
             | none => []) ++
            [Effect.getLeadCall cn])
      | none => []
    (s1, dbEffs ++ [Effect.twSend (.tts s.streamSid aiResponse), Effect.scheduleContinue])
  | .audioDelta delta itemId =>
    if delta ≠ "" then
      let s1 := { s with outgoingAudioBuffer := s.outgoingAudioBuffer ++ [delta] }
      let s2 :=
        if jsFalsyNat s1.responseStartTimestamp then
          { s1 with responseStartTimestamp := some s1.latestMediaTimestamp }
        else s1
      let s3 :=
        match itemId with
        | some iid => { s2 with lastAssistantItem := some iid }
        | none => s2
      match s3.streamSid with
      | some sid =>
        ({ s3 with markQueue := s3.markQueue ++ ["responsePart"] },
          [Effect.twSend (.media s.streamSid delta), Effect.twSend (.mark sid)])
      | none => (s3, [Effect.twSend (.media s.streamSid delta)])
    else (s, [])
  | .otherEvent => (s, [])

/-- The `connection.on("message")` handler of `admin.js`, as a state
transition plus emitted effects. -/
def processTelephonyEvent (env : Env) (s : Session) (e : TelephonyEvent) :
    Session × List Effect :=
  match e with
  | .start sid cn =>
    ({ s with streamSid := some sid, customerNumber := cn,
              responseStartTimestamp := none, latestMediaTimestamp := 0,
              incomingAudioBuffer := [], outgoingAudioBuffer := [] }, [])
  | .media sid ts payload track chunk =>
    let s1 := { s with latestMediaTimestamp := ts }
    let forward :=
      if env.aiOpen then
        ({ s1 with incomingAudioBuffer := s1.incomingAudioBuffer ++ [payload] },
          [Effect.aiSend (.audioAppend payload)])
      else (s1, [])
    let s2 := forward.1
    let convEffs :=
      Effect.addConversationCall s.customerNumber "User audio received" false ::
        addConversationEffects env.leadExists s.customerNumber "User audio received" false
    let s3 :=
      if (List.lookup sid s2.customerNumbers).isNone then
        { s2 with customerNumbers := s2.customerNumbers ++ [(sid, s2.customerNumber)] }
      else s2
    let eosEffs :=
      if track = some "inbound" ∧ chunk = some "end" then
        if env.aiOpen then [Effect.aiSend .speechStopped] else []
      else []
    (promptAIIfSilent env.now s3, forward.2 ++ convEffs ++ eosEffs)
  | .mark _ =>
    match s.markQueue with
    | [] => (s, [])
    | _ :: rest => ({ s with markQueue := rest }, [])
  | .stop sid =>
    let s1 := { s with customerNumbers := s.customerNumbers.filter fun p => p.1 != sid }
    if s1.outgoingAudioBuffer ≠ [] then
      ({ s1 with outgoingAudioBuffer := [] },
        [Effect.saveRecordingCall s.streamSid, Effect.transcribeCall s.streamSid,
         Effect.updateLeadStatusCall s.customerNumber "call_completed"])
    else (s1, [])
  | .otherEvent _ => (s, [])

/-! ### Derived observations used by the claims -/

/-- Whether an effect is a call to `updateLeadEmail`. -/
def isEmailUpdate : Effect → Bool
  | Effect.updateLeadEmailCall _ _ => true
  | _ => false

/-- Number of `updateLeadEmail` calls among the effects. -/
def countEmailUpdates (effs : List Effect) : Nat := effs.countP isEmailUpdate

/-- Whether an effect inserts a conversation row. -/
def isInsertConv : Effect → Bool
  | Effect.insertConversation _ _ _ => true
  | _ => false

/-- Number of conversation-row inserts among the effects. -/
def countInserts (effs : List Effect) : Nat := effs.countP isInsertConv

/-- Whether an effect saves a recording or transcribes one. -/
def isRecordingEffect : Effect → Bool
  | Effect.saveRecordingCall _ => true
  | Effect.transcribeCall _ => true
  | _ => false

/-- Number of recording/transcription effects. -/
def countRecordingEffects (effs : List Effect) : Nat := effs.countP isRecordingEffect

/-- The silence timers that are still armed (not cancelled). -/
def activeTimers (s : Session) : List SilenceTimer :=
  s.silenceTimers.filter fun t => t.active

/-- The coherence invariant of the silence-timer discipline: every armed
timer is the one `silenceTimeout` points to, timer ids are fresh, and no id
repeats. -/
def silenceInv (s : Session) : Prop :=
  (∀ t ∈ s.silenceTimers, t.active = true → s.silenceHandle = some t.id) ∧
  (∀ t ∈ s.silenceTimers, t.id < s.nextTimerId) ∧
  s.silenceTimers.Pairwise fun a b => a.id ≠ b.id

/-! ### Concrete fixtures -/

/-- A database in which every canonical number has a lead row. -/
def leadAll : String → Bool := fun _ => true

/-- Environment with the AI socket open. -/
def envOpen : Env := ⟨true, leadAll, 1000⟩

/-- Environment with the AI socket not open. -/
def envClosed : Env := ⟨false, leadAll, 1000⟩

/-- A session with one pending mark. -/
def markSession : Session := { initialSession with markQueue := ["responsePart"] }

/-- The session right after a `start` event for stream `S1` and customer
`+12626912510`. -/
def mediaStartedSession : Session :=
  (processTelephonyEvent envOpen initialSession
    (TelephonyEvent.start "S1" (some "+12626912510"))).1

/-- `mediaStartedSession` after one inbound media chunk. -/
def preStopSession : Session :=
  (processTelephonyEvent envOpen mediaStartedSession
    (TelephonyEvent.media "S1" 5 "QUJD" (some "inbound") none)).1

/-- `preStopSession` after the `stop` event. -/
def postStopSession : Session :=
  (processTelephonyEvent envOpen preStopSession (TelephonyEvent.stop "S1")).1

/-- A session whose current AI turn text holds one email after the literal
`email:` marker. -/
def colonEmailSession : Session :=
  { initialSession with
    customerNumber := some "+12626912510",
    accumulatedText := "email: a@b.us" }

/-- A session whose current AI turn text holds an `email:`-marked token that
the extraction regex does not match (no dot-separated top-level label). -/
def colonBareSession : Session :=
  { initialSession with
    customerNumber := some "+12626912510",
    accumulatedText := "email: a@b" }

/-- A session whose current AI turn text holds exactly one email-shaped
substring and no `email:` marker. -/
def plainEmailSession : Session :=
  { initialSession with
    customerNumber := some "+12626912510",
    accumulatedText := "ok a@b.us" }

/-- A session whose current AI turn text holds no email-shaped substring and
no `email:` marker. -/
def noEmailSession : Session :=
  { initialSession with
    customerNumber := some "+12626912510",
    accumulatedText := "hello there" }

/-! ### Helper lemmas about the backtracking search -/

theorem searchDown_eq_some {α : Type} {f : Nat → Option α} {n : Nat} {a : α}
    (h : searchDown f n = some a) : ∃ k, 1 ≤ k ∧ k ≤ n ∧ f k = some a := by
  induction n with
  | zero => simp [searchDown] at h
  | succ m ih =>
    rw [searchDown] at h
    cases hf : f (m + 1) with
    | some b =>
      rw [hf] at h
      exact ⟨m + 1, by omega, by omega, by rw [hf]; exact h⟩
    | none =>
      rw [hf] at h
      obtain ⟨k, h1, h2, h3⟩ := ih h
      exact ⟨k, h1, by omega, h3⟩

theorem searchDown_eq_none {α : Type} {f : Nat → Option α} {n : Nat}
    (h : searchDown f n = none) : ∀ k, 1 ≤ k → k ≤ n → f k = none := by
  induction n with
  | zero => intro k h1 h2; omega
  | succ m ih =>
    intro k h1 h2
    rw [searchDown] at h
    cases hf : f (m + 1) with
    | some b => rw [hf] at h; exact absurd h (by simp)
    | none =>
      rw [hf] at h
      rcases Nat.lt_or_ge k (m + 1) with hk | hk
      · exact ih h k h1 (by omega)
      · have : k = m + 1 := by omega
        rw [this]; exact hf

theorem runLen_le_length (p : Char → Bool) (xs : List Char) : runLen p xs ≤ xs.length := by
  induction xs with
  | nil => simp [runLen]
  | cons c cs ih =>
    rw [runLen]
    by_cases h : p c = true
    · simp [h]; omega
    · simp [h]

theorem take_all_of_le_runLen {p : Char → Bool} {xs : List Char} {k : Nat}
    (h : k ≤ runLen p xs) : (xs.take k).all p = true := by
  induction xs generalizing k with
  | nil => simp
  | cons c cs ih =>
    cases k with
    | zero => simp
    | succ j =>
      rw [runLen] at h
      by_cases hc : p c = true
      · rw [if_pos hc] at h
        simp only [List.take_succ_cons, List.all_cons, hc, Bool.true_and]
        exact ih (by omega)
      · rw [if_neg hc] at h; omega

theorem le_runLen_of_take_all {p : Char → Bool} {xs : List Char} {k : Nat}
    (hall : (xs.take k).all p = true) (hlen : k ≤ xs.length) : k ≤ runLen p xs := by
  induction xs generalizing k with
  | nil => simp at hlen; omega
  | cons c cs ih =>
    cases k with
    | zero => omega
    | succ j =>
      simp only [List.take_succ_cons, List.all_cons, Bool.and_eq_true] at hall
      rw [runLen, if_pos hall.1]
      have := ih hall.2 (by simpa using hlen)
      omega

theorem takeWhile_append_not {p : Char → Bool} {A : List Char} {c : Char} {l2 : List Char}
    (hA : A.all p = true) (hc : p c = false) : (A ++ c :: l2).takeWhile p = A := by
  induction A with
  | nil => simp [List.takeWhile, hc]
  | cons a A ih =>
    simp only [List.all_cons, Bool.and_eq_true] at hA
    simp [List.takeWhile, hA.1, ih hA.2]

/-! ### `emailExact` as an explicit decomposition -/

theorem emailShape_of_emailExact {xs : List Char} (h : emailExact xs = true) :
    EmailShape xs := by
  rw [emailExact] at h
  split at h
  · simp at h
  rename_i hl
  split at h
  · simp at h
  rename_i x1 c rest2 hd
  split at h
  case isFalse => simp at h
  rename_i hc
  subst hc
  split at h
  · simp at h
  rename_i ht
  split at h
  · simp at h
  rename_i x2 c2 rd hrt
  split at h
  case isFalse => simp at h
  rename_i hc2
  subst hc2
  simp only [Bool.and_eq_true, Bool.not_eq_true'] at h
  obtain ⟨hrdne, hrdall⟩ := h
  have hrdne2 : rd ≠ [] := by
    intro hn; rw [hn] at hrdne; simp at hrdne
  set A := xs.takeWhile isLocalChar with hA
  set T := rest2.reverse.takeWhile isTldChar with hT
  have hxs : xs = A ++ '@' :: rest2 := by
    conv_lhs => rw [← List.take_append_drop A.length xs]
    rw [hd]
    congr 1
    rw [hA]
    exact (List.prefix_iff_eq_take.mp (List.takeWhile_prefix isLocalChar)).symm
  have h1 : rest2.reverse = T ++ '.' :: rd := by
    conv_lhs => rw [← List.take_append_drop T.length rest2.reverse]
    rw [hrt]
    congr 1
    rw [hT]
    exact (List.prefix_iff_eq_take.mp (List.takeWhile_prefix isTldChar)).symm
  have hrest2 : rest2 = rd.reverse ++ '.' :: T.reverse := by
    have h2 := congrArg List.reverse h1
    rw [List.reverse_reverse] at h2
    rw [h2, List.reverse_append, List.reverse_cons, List.append_assoc]
    simp
  refine ⟨A, rd.reverse, T.reverse, ?_, ?_, ?_, ?_, ?_, ?_, ?_⟩
  · rw [hxs, hrest2]
  · intro hne; rw [hne] at hl; simp at hl
  · rw [hA]; exact List.all_takeWhile ..
  · simp [hrdne2]
  · rw [List.all_reverse]; exact hrdall
  · rw [List.length_reverse]; omega
  · rw [List.all_reverse, hT]; exact List.all_takeWhile ..

theorem emailExact_of_emailShape {xs : List Char} (h : EmailShape xs) :
    emailExact xs = true := by
  obtain ⟨A, B, C, hxs, hAne, hAall, hBne, hBall, hClen, hCall⟩ := h
  have hat : isLocalChar '@' = false := by decide
  have hdot : isTldChar '.' = false := by decide
  have htw : xs.takeWhile isLocalChar = A := by
    rw [hxs]; exact takeWhile_append_not hAall hat
  rw [emailExact, htw]
  rw [if_neg (by simpa using hAne)]
  have hdrop : xs.drop A.length = '@' :: (B ++ '.' :: C) := by
    rw [hxs]; exact List.drop_left A _
  rw [hdrop]
  simp only [if_true]
  have hrev : (B ++ '.' :: C).reverse = C.reverse ++ '.' :: B.reverse := by
    rw [List.reverse_append, List.reverse_cons, List.append_assoc]; simp
  rw [hrev]
  have htw2 : (C.reverse ++ '.' :: B.reverse).takeWhile isTldChar = C.reverse :=
    takeWhile_append_not (by rw [List.all_reverse]; exact hCall) hdot
  rw [htw2, List.length_reverse]
  rw [if_neg (by omega)]
  have hdrop2 : (C.reverse ++ '.' :: B.reverse).drop C.length = '.' :: B.reverse := by
    have hlr : C.reverse.length = C.length := List.length_reverse C
    rw [← hlr]; exact List.drop_left _ _
  rw [hdrop2]
  simp only [if_true]
  simp only [Bool.and_eq_true, Bool.not_eq_true', List.all_reverse]
  constructor
  · simp [hBne]
  · exact hBall

/-! ### Soundness and completeness of the backtracking matcher -/

theorem tryTld_sound {cs : List Char} {i l d : Nat} {rest3 : List Char} {r : Nat × Nat}
    (h : tryTld cs i l d rest3 = some r) :
    ∃ t, 2 ≤ t ∧ t ≤ runLen isTldChar rest3 ∧
      r = (i, l + 1 + d + 1 + t) ∧ boundaryAt cs (i + (l + 1 + d + 1 + t)) = true := by
  obtain ⟨t, _h1, h2, h3⟩ := searchDown_eq_some h
  by_cases hc : 2 ≤ t ∧ boundaryAt cs (i + (l + 1 + d + 1 + t)) = true
  · rw [if_pos hc] at h3
    exact ⟨t, hc.1, h2, (Option.some.inj h3).symm, hc.2⟩
  · rw [if_neg hc] at h3; simp at h3

theorem tryDomain_sound {cs : List Char} {i l : Nat} {rest2 : List Char} {r : Nat × Nat}
    (h : tryDomain cs i l rest2 = some r) :
    ∃ d rest3, 1 ≤ d ∧ d ≤ runLen isDomainChar rest2 ∧
      rest2.drop d = '.' :: rest3 ∧ tryTld cs i l d rest3 = some r := by
  obtain ⟨d, h1, h2, h3⟩ := searchDown_eq_some h
  split at h3
  · simp at h3
  rename_i x c rest3 hdrop
  split at h3
  case isFalse => simp at h3
  rename_i hc
  subst hc
  exact ⟨d, rest3, h1, h2, hdrop, h3⟩

theorem tryEmailAt_sound {cs : List Char} {i : Nat} {r : Nat × Nat}
    (h : tryEmailAt cs i = some r) :
    ∃ len, r = (i, len) ∧ spanIsEmail cs i len = true := by
  rw [tryEmailAt] at h
  split at h
  case isFalse => simp at h
  rename_i hb
  obtain ⟨l, hl1, hl2, h3⟩ := searchDown_eq_some h
  split at h3
  · simp at h3
  rename_i x c rest2 hdl
  split at h3
  case isFalse => simp at h3
  rename_i hc
  subst hc
  obtain ⟨d, rest3, hd1, hd2, hdd, htld⟩ := tryDomain_sound h3
  obtain ⟨t, ht2, htt, hr, hbnd⟩ := tryTld_sound htld
  refine ⟨l + 1 + d + 1 + t, hr, ?_⟩
  -- length bookkeeping
  have hrl : (cs.drop i).length = cs.length - i := List.length_drop i cs
  have hdl' : ((cs.drop i).drop l).length = rest2.length + 1 := by rw [hdl]; simp
  have hdl'' : (cs.drop i).length - l = rest2.length + 1 := by
    rw [← hdl']; simp [List.length_drop]; omega
  have hdd' : rest2.length - d = rest3.length + 1 := by
    have := congrArg List.length hdd
    simpa [List.length_drop] using this
  have htl : t ≤ rest3.length := le_trans htt (runLen_le_length _ _)
  have hlrest : l < (cs.drop i).length := by omega
  have hdrest : d < rest2.length := by omega
  have hile : i ≤ cs.length := by
    by_contra hgt
    have : (cs.drop i).length = 0 := by omega
    omega
  -- the decomposition of the span
  have e1 : cs.drop i = (cs.drop i).take l ++ '@' :: rest2 := by
    conv_lhs => rw [← List.take_append_drop l (cs.drop i)]
    rw [hdl]
  have e2 : rest2 = rest2.take d ++ '.' :: rest3 := by
    conv_lhs => rw [← List.take_append_drop d rest2]
    rw [hdd]
  have e3 : rest3 = rest3.take t ++ rest3.drop t := (List.take_append_drop t rest3).symm
  have e4 : cs.drop i =
      ((cs.drop i).take l ++ '@' :: (rest2.take d ++ '.' :: rest3.take t)) ++ rest3.drop t := by
    conv_lhs => rw [e1, e2, e3]
    simp
  have hlenA : ((cs.drop i).take l).length = l := by
    simp [List.length_take]; omega
  have hlenB : (rest2.take d).length = d := by
    simp [List.length_take]; omega
  have hlenC : (rest3.take t).length = t := by
    simp [List.length_take]; omega
  have hspan : (cs.drop i).take (l + 1 + d + 1 + t) =
      (cs.drop i).take l ++ '@' :: (rest2.take d ++ '.' :: rest3.take t) := by
    conv_lhs => rw [e4]
    refine List.take_left' ?_
    simp [hlenA, hlenB, hlenC]
    omega
  have hshape : EmailShape ((cs.drop i).take (l + 1 + d + 1 + t)) := by
    rw [hspan]
    refine ⟨(cs.drop i).take l, rest2.take d, rest3.take t, rfl, ?_, ?_, ?_, ?_, ?_, ?_⟩
    · intro hn
      have := congrArg List.length hn
      rw [hlenA] at this
      simp at this
      omega
    · exact take_all_of_le_runLen hl2
    · intro hn
      have := congrArg List.length hn
      rw [hlenB] at this
      simp at this
      omega
    · exact take_all_of_le_runLen hd2
    · rw [hlenC]; omega
    · exact take_all_of_le_runLen htt
  rw [spanIsEmail]
  simp only [Bool.and_eq_true, decide_eq_true_eq]
  refine ⟨⟨⟨hb, ?_⟩, ?_⟩, emailExact_of_emailShape hshape⟩
  · exact hbnd
  · omega

theorem tryEmailAt_complete {cs : List Char} {i len : Nat}
    (hspan : spanIsEmail cs i len = true) : tryEmailAt cs i ≠ none := by
  rw [spanIsEmail] at hspan
  simp only [Bool.and_eq_true, decide_eq_true_eq] at hspan
  obtain ⟨⟨⟨hb, hbe⟩, hle⟩, hex⟩ := hspan
  obtain ⟨A, B, C, hdec, hAne, hAall, hBne, hBall, hClen, hCall⟩ :=
    emailShape_of_emailExact hex
  intro hnone
  rw [tryEmailAt, if_pos hb] at hnone
  -- lengths
  have hlted : len ≤ (cs.drop i).length := by
    simp [List.length_drop]; omega
  have hspanlen : ((cs.drop i).take len).length = len := by
    simp [List.length_take]; omega
  have hABC : A.length + 1 + (B.length + 1 + C.length) = len := by
    have := congrArg List.length hdec
    rw [hspanlen] at this
    simp at this
    omega
  -- the span is a prefix of `cs.drop i`
  have hpre : cs.drop i = (A ++ '@' :: (B ++ '.' :: C)) ++ (cs.drop i).drop len := by
    conv_lhs => rw [← List.take_append_drop len (cs.drop i)]
    rw [hdec]
  have hAtake : (cs.drop i).take A.length = A := by
    conv_lhs => rw [hpre]
    rw [List.append_assoc]
    exact List.take_left A _
  have hAlen : A.length ≤ runLen isLocalChar (cs.drop i) :=
    le_runLen_of_take_all (by rw [hAtake]; exact hAall) (by simp [List.length_drop]; omega)
  have hA1 : 1 ≤ A.length := by
    cases hA : A with
    | nil => exact absurd hA hAne
    | cons a as => simp [hA]
  have h1 := searchDown_eq_none hnone A.length hA1 hAlen
  -- `f A.length` must reduce along the decomposition
  have hdropA : (cs.drop i).drop A.length = '@' :: (B ++ '.' :: C ++ (cs.drop i).drop len) := by
    conv_lhs => rw [hpre]
    rw [List.drop_append_eq_append_drop]
    simp
  rw [hdropA] at h1
  simp only [reduceIte] at h1
  -- now the domain-level search
  have hBtake : (B ++ '.' :: C ++ (cs.drop i).drop len).take B.length = B := by
    rw [List.append_assoc]
    exact List.take_left B _
  have hBlen : B.length ≤ runLen isDomainChar (B ++ '.' :: C ++ (cs.drop i).drop len) :=
    le_runLen_of_take_all (by rw [hBtake]; exact hBall) (by simp)
  have hB1 : 1 ≤ B.length := by
    cases hB : B with
    | nil => exact absurd hB hBne
    | cons b bs => simp [hB]
  have h2 := searchDown_eq_none h1 B.length hB1 hBlen
  have hdropB : (B ++ '.' :: C ++ (cs.drop i).drop len).drop B.length =
      '.' :: (C ++ (cs.drop i).drop len) := by
    rw [List.append_assoc]
    exact List.drop_left B _
  rw [hdropB] at h2
  simp only [reduceIte] at h2
  -- the tld-level search
  have hCtake : (C ++ (cs.drop i).drop len).take C.length = C := List.take_left C _
  have hCle : C.length ≤ runLen isTldChar (C ++ (cs.drop i).drop len) :=
    le_runLen_of_take_all (by rw [hCtake]; exact hCall) (by simp)
  have h3 := searchDown_eq_none h2 C.length (by omega) hCle
  have hbe2 : boundaryAt cs (i + (A.length + 1 + B.length + 1 + C.length)) = true := by
    have heq : A.length + 1 + B.length + 1 + C.length = len := by omega
    rw [heq]; exact hbe
  simp [hClen, hbe2] at h3

/-! ### First-match and occurrence-list lemmas -/

theorem scanFrom_eq_some {cs : List Char} {idxs : List Nat} {r : Nat × Nat}
    (h : scanFrom cs idxs = some r) : ∃ i ∈ idxs, tryEmailAt cs i = some r := by
  induction idxs with
  | nil => simp [scanFrom] at h
  | cons j rest ih =>
    rw [scanFrom] at h
    cases hj : tryEmailAt cs j with
    | some r2 =>
      rw [hj] at h
      exact ⟨j, by simp, by rw [hj]; exact h⟩
    | none =>
      rw [hj] at h
      obtain ⟨i, hi, ht⟩ := ih h
      exact ⟨i, by simp [hi], ht⟩

theorem scanFrom_eq_none {cs : List Char} {idxs : List Nat}
    (h : scanFrom cs idxs = none) : ∀ i ∈ idxs, tryEmailAt cs i = none := by
  induction idxs with
  | nil => simp
  | cons j rest ih =>
    intro i hi
    rw [scanFrom] at h
    cases hj : tryEmailAt cs j with
    | some r2 => rw [hj] at h; simp at h
    | none =>
      rw [hj] at h
      rcases List.mem_cons.mp hi with rfl | hmem
      · exact hj
      · exact ih h i hmem

theorem spanIsEmail_le {cs : List Char} {i len : Nat} (h : spanIsEmail cs i len = true) :
    i + len ≤ cs.length := by
  rw [spanIsEmail] at h
  simp only [Bool.and_eq_true, decide_eq_true_eq] at h
  exact h.1.2

theorem mem_emailOccurrences {cs : List Char} {i len : Nat} :
    (i, len) ∈ emailOccurrences cs ↔ spanIsEmail cs i len = true := by
  constructor
  · intro h
    rw [emailOccurrences] at h
    obtain ⟨j, _hj, hmem⟩ := List.mem_flatMap.mp h
    obtain ⟨m, _hm, heq⟩ := List.mem_filterMap.mp hmem
    by_cases hs : spanIsEmail cs j m = true
    · rw [if_pos hs] at heq
      obtain ⟨h1, h2⟩ := Prod.mk.injEq .. ▸ Option.some.inj heq
      rw [← h1, ← h2]
      exact hs
    · rw [if_neg hs] at heq; simp at heq
  · intro h
    have hle := spanIsEmail_le h
    rw [emailOccurrences]
    refine List.mem_flatMap.mpr ⟨i, List.mem_range.mpr (by omega), ?_⟩
    refine List.mem_filterMap.mpr ⟨len, List.mem_range.mpr (by omega), ?_⟩
    rw [if_pos h]

theorem firstEmailSpan_unique {cs : List Char} {i len : Nat}
    (h : emailOccurrences cs = [(i, len)]) : firstEmailSpan cs = some (i, len) := by
  have hspan : spanIsEmail cs i len = true :=
    mem_emailOccurrences.mp (by rw [h]; simp)
  cases hf : firstEmailSpan cs with
  | none =>
    have hall := scanFrom_eq_none hf
    have hle := spanIsEmail_le hspan
    exact absurd (hall i (List.mem_range.mpr (by omega))) (tryEmailAt_complete hspan)
  | some r =>
    obtain ⟨j, _hj, ht⟩ := scanFrom_eq_some hf
    obtain ⟨len2, hr, hsp2⟩ := tryEmailAt_sound ht
    have hmem : (j, len2) ∈ emailOccurrences cs := mem_emailOccurrences.mpr hsp2
    rw [h, List.mem_singleton, Prod.mk.injEq] at hmem
    rw [hr, hmem.1, hmem.2]

theorem emailMatchJS_of_unique {s : String} {i len : Nat}
    (h : emailOccurrences s.data = [(i, len)]) :
    emailMatchJS s = some (String.mk ((s.data.drop i).take len)) := by
  rw [emailMatchJS, firstEmailSpan_unique h, Option.map_some']

theorem emailMatchJS_of_none {s : String} (h : emailOccurrences s.data = []) :
    emailMatchJS s = none := by
  rw [emailMatchJS]
  cases hf : firstEmailSpan s.data with
  | none => rfl
  | some r =>
    obtain ⟨j, _hj, ht⟩ := scanFrom_eq_some hf
    obtain ⟨len2, _hr, hsp2⟩ := tryEmailAt_sound ht
    have hmem := mem_emailOccurrences.mpr hsp2
    rw [h] at hmem
    simp at hmem

/-! ### Phone canonicalization (C2, C10) -/

theorem standardizePhoneNumber_spec (s : String) :
    ((s.data.filter Char.isDigit).length = 10 →
      standardizePhoneNumber s = some (String.mk ('+' :: '1' :: s.data.filter Char.isDigit))) ∧
    ((s.data.filter Char.isDigit).length = 11 →
      (s.data.filter Char.isDigit).head? = some '1' →
      standardizePhoneNumber s =
        some (String.mk ('+' :: '1' :: (s.data.filter Char.isDigit).tail))) ∧
    (¬((s.data.filter Char.isDigit).length = 10 ∨
        ((s.data.filter Char.isDigit).length = 11 ∧
          (s.data.filter Char.isDigit).head? = some '1')) →
      standardizePhoneNumber s = none) := by
  by_cases hs : s = ""
  · subst hs
    refine ⟨?_, ?_, ?_⟩ <;> intro h
    · simp at h
    · intro h2; simp at h
    · rfl
  refine ⟨?_, ?_, ?_⟩
  · intro h10
    rw [standardizePhoneNumber, if_neg hs, if_neg (by omega), if_pos h10]
  · intro h11 hhead
    rw [standardizePhoneNumber, if_neg hs, if_pos ⟨h11, hhead⟩]
    cases hd : s.data.filter Char.isDigit with
    | nil => rw [hd] at h11; simp at h11
    | cons c rest =>
      rw [hd] at hhead
      simp only [List.head?_cons, Option.some.injEq] at hhead
      rw [hhead]
      rfl
  · intro hno
    rw [standardizePhoneNumber, if_neg hs]
    rw [if_neg (by tauto), if_neg (by tauto)]

theorem standardizePhoneNumber_canonical {s r : String}
    (h : standardizePhoneNumber s = some r) :
    ∃ ds : List Char, ds.all Char.isDigit = true ∧ ds.length = 10 ∧
      r = String.mk ('+' :: '1' :: ds) := by
  rw [standardizePhoneNumber] at h
  split at h
  · simp at h
  simp only at h
  split at h
  · rename_i hc
    obtain ⟨h11, hhead⟩ := hc
    cases hd : s.data.filter Char.isDigit with
    | nil => rw [hd] at h11; simp at h11
    | cons c rest =>
      rw [hd] at hhead h11 h
      simp only [List.head?_cons, Option.some.injEq] at hhead
      refine ⟨rest, ?_, by simp at h11; omega, ?_⟩
      · have : (c :: rest).all Char.isDigit = true := by
          rw [← hd]
          simp only [List.all_eq_true]
          intro a ha
          exact List.of_mem_filter ha
        simp only [List.all_cons, Bool.and_eq_true] at this
        exact this.2
      · rw [hhead] at h
        exact (Option.some.inj h).symm
  split at h
  · rename_i hc1 h10
    refine ⟨s.data.filter Char.isDigit, ?_, h10, (Option.some.inj h).symm⟩
    simp only [List.all_eq_true]
    intro a ha
    exact List.of_mem_filter ha
  · simp at h

theorem filter_isDigit_canonical (ds : List Char) (hall : ds.all Char.isDigit = true) :
    (('+' :: '1' :: ds).filter Char.isDigit) = '1' :: ds := by
  have h1 : Char.isDigit '+' = false := by decide
  have h2 : Char.isDigit '1' = true := by decide
  rw [List.filter_cons, h1]
  simp only [Bool.false_eq_true, if_false]
  rw [List.filter_cons, h2]
  simp only [if_true]
  congr 1
  exact List.filter_eq_self.mpr fun a ha => List.all_eq_true.mp hall a ha

theorem standardizePhoneNumber_idem {s r : String}
    (h : standardizePhoneNumber s = some r) : standardizePhoneNumber r = some r := by
  obtain ⟨ds, hall, hlen, hr⟩ := standardizePhoneNumber_canonical h
  subst hr
  have hdata : (String.mk ('+' :: '1' :: ds)).data = '+' :: '1' :: ds := rfl
  have hne : String.mk ('+' :: '1' :: ds) ≠ "" := by
    intro hc
    have := String.ext_iff.mp hc
    simp at this
  rw [standardizePhoneNumber, if_neg hne, hdata, filter_isDigit_canonical ds hall]
  rw [if_pos ⟨by simp [hlen], by simp⟩]

/-! ### Lemmas about the data-access effects -/

theorem addConversationEffects_user_audio (leadExists : String → Bool)
    (phoneNumber : Option String) :
    addConversationEffects leadExists phoneNumber "User audio received" false = [] := by
  rw [addConversationEffects.eq_def]
  split
  · rfl
  split
  · rw [if_neg (by simp)]
  · rfl

theorem countEmailUpdates_addConversation_no_marker (leadExists : String → Bool)
    (phoneNumber : Option String) (content : String) (isAiResponse : Bool)
    (h : strIncludes content "email:" = false) :
    countEmailUpdates (addConversationEffects leadExists phoneNumber content isAiResponse)
      = 0 := by
  rw [addConversationEffects.eq_def]
  split
  · rfl
  split
  case isFalse => rfl
  split
  case isFalse => rfl
  rw [if_neg (by rw [h]; simp)]
  simp [countEmailUpdates, isEmailUpdate]

theorem countInserts_addConversation_user_audio (leadExists : String → Bool)
    (phoneNumber : Option String) :
    countInserts (addConversationEffects leadExists phoneNumber "User audio received" false)
      = 0 := by
  rw [addConversationEffects_user_audio]
  rfl

theorem aiSend_not_mem_addConversation (leadExists : String → Bool)
    (phoneNumber : Option String) (content : String) (isAiResponse : Bool) (m : AiMsg) :
    Effect.aiSend m ∉ addConversationEffects leadExists phoneNumber content isAiResponse := by
  rw [addConversationEffects.eq_def]
  split
  · simp
  split
  case isFalse => simp
  split
  case isFalse => simp
  split
  · split
    · simp
    · simp
  · simp

/-! ### Lemmas about the silence-timer discipline -/

theorem cleared_id (hdl : Nat) (t : SilenceTimer) :
    (if t.id = hdl then { t with active := false } else t).id = t.id := by
  split <;> rfl

theorem activeTimers_promptAIIfSilent (now : Nat) (s : Session)
    (hinv : ∀ t ∈ s.silenceTimers, t.active = true → s.silenceHandle = some t.id) :
    activeTimers (promptAIIfSilent now s)
      = [⟨s.nextTimerId, now + silenceTimeoutMs, true⟩] := by
  cases hh : s.silenceHandle with
  | none =>
    simp only [promptAIIfSilent, hh, activeTimers]
    rw [List.filter_append]
    have hnil : s.silenceTimers.filter (fun t => t.active) = [] := by
      rw [List.filter_eq_nil_iff]
      intro t ht hact
      have := hinv t ht (by simpa using hact)
      rw [hh] at this; simp at this
    rw [hnil]
    rfl
  | some hdl =>
    simp only [promptAIIfSilent, hh, activeTimers]
    rw [List.filter_append]
    have hnil : (s.silenceTimers.map fun t =>
        if t.id = hdl then { t with active := false } else t).filter
          (fun t => t.active) = [] := by
      rw [List.filter_eq_nil_iff]
      intro t ht hact
      obtain ⟨t0, ht0, rfl⟩ := List.mem_map.mp ht
      by_cases hid : t0.id = hdl
      · rw [if_pos hid] at hact; simp at hact
      · rw [if_neg hid] at hact
        have hh2 := hinv t0 ht0 (by simpa using hact)
        rw [hh] at hh2
        exact hid (Option.some.inj hh2).symm
    rw [hnil]
    rfl

theorem silenceInv_promptAIIfSilent (now : Nat) (s : Session) (h : silenceInv s) :
    silenceInv (promptAIIfSilent now s) := by
  obtain ⟨h1, h2, h3⟩ := h
  cases hh : s.silenceHandle with
  | none =>
    simp only [silenceInv, promptAIIfSilent, hh]
    refine ⟨?_, ?_, ?_⟩
    · intro t ht hact
      rcases List.mem_append.mp ht with hmem | hmem
      · exact absurd (h1 t hmem hact) (by rw [hh]; simp)
      · simp at hmem; rw [hmem]
    · intro t ht
      rcases List.mem_append.mp ht with hmem | hmem
      · have := h2 t hmem; omega
      · simp at hmem; rw [hmem]
        show s.nextTimerId < s.nextTimerId + 1
        omega
    · rw [List.pairwise_append]
      refine ⟨h3, by simp, ?_⟩
      intro a ha b hb
      simp at hb
      rw [hb]
      show a.id ≠ s.nextTimerId
      have := h2 a ha
      omega
  | some hdl =>
    simp only [silenceInv, promptAIIfSilent, hh]
    refine ⟨?_, ?_, ?_⟩
    · intro t ht hact
      rcases List.mem_append.mp ht with hmem | hmem
      · exfalso
        obtain ⟨t0, ht0, rfl⟩ := List.mem_map.mp hmem
        by_cases hid : t0.id = hdl
        · rw [if_pos hid] at hact; simp at hact
        · rw [if_neg hid] at hact
          have hh2 := h1 t0 ht0 hact
          rw [hh] at hh2
          exact hid (Option.some.inj hh2).symm
      · simp at hmem; rw [hmem]
    · intro t ht
      rcases List.mem_append.mp ht with hmem | hmem
      · obtain ⟨t0, ht0, rfl⟩ := List.mem_map.mp hmem
        have := h2 t0 ht0
        rw [cleared_id]
        omega
      · simp at hmem; rw [hmem]
        show s.nextTimerId < s.nextTimerId + 1
        omega
    · rw [List.pairwise_append]
      refine ⟨?_, by simp, ?_⟩
      · rw [List.pairwise_map]
        refine h3.imp ?_
        intro a b hab
        rw [cleared_id, cleared_id]
        exact hab
      · intro a ha b hb
        simp at hb
        rw [hb]
        obtain ⟨t0, ht0, rfl⟩ := List.mem_map.mp ha
        rw [cleared_id]
        show t0.id ≠ s.nextTimerId
        have := h2 t0 ht0
        omega

theorem silenceInv_processTelephonyEvent (env : Env) (s : Session) (e : TelephonyEvent)
    (h : silenceInv s) : silenceInv (processTelephonyEvent env s e).1 := by
  cases e with
  | start sid cn => exact h
  | media sid ts payload track chunk =>
    simp only [processTelephonyEvent]
    split
    · split
      · exact silenceInv_promptAIIfSilent env.now _ h
      · exact silenceInv_promptAIIfSilent env.now _ h
    · split
      · exact silenceInv_promptAIIfSilent env.now _ h
      · exact silenceInv_promptAIIfSilent env.now _ h
  | mark sid =>
    simp only [processTelephonyEvent]
    split
    · exact h
    · exact h
  | stop sid =>
    simp only [processTelephonyEvent]
    split
    · exact h
    · exact h
  | otherEvent n => exact h

theorem activeTimers_length_le_one (s : Session) (h : silenceInv s) :
    (activeTimers s).length ≤ 1 := by
  obtain ⟨h1, _h2, h3⟩ := h
  have hpair : (activeTimers s).Pairwise fun a b => a.id ≠ b.id :=
    h3.sublist (List.filter_sublist _)
  cases hA : activeTimers s with
  | nil => simp
  | cons a rest =>
    cases rest with
    | nil => simp
    | cons b rest2 =>
      exfalso
      have hamem : a ∈ activeTimers s := by rw [hA]; simp
      have hbmem : b ∈ activeTimers s := by rw [hA]; simp
      have haact : a.active = true := by simpa using List.of_mem_filter hamem
      have hbact : b.active = true := by simpa using List.of_mem_filter hbmem
      have ha2 : a ∈ s.silenceTimers := List.mem_of_mem_filter hamem
      have hb2 : b ∈ s.silenceTimers := List.mem_of_mem_filter hbmem
      have hha := h1 a ha2 haact
      have hhb := h1 b hb2 hbact
      have hne : a.id ≠ b.id := by
        rw [hA] at hpair
        exact (List.pairwise_cons.mp hpair).1 b (by simp)
      rw [hha] at hhb
      exact hne (Option.some.inj hhb)

theorem activeTimers_media (env : Env) (s : Session) (sid : String) (ts : Nat)
    (payload : String) (track chunk : Option String) (h : silenceInv s) :
    activeTimers (processTelephonyEvent env s
        (TelephonyEvent.media sid ts payload track chunk)).1
      = [⟨s.nextTimerId, env.now + silenceTimeoutMs, true⟩] := by
  simp only [processTelephonyEvent]
  split
  · split
    · exact activeTimers_promptAIIfSilent env.now _ h.1
    · exact activeTimers_promptAIIfSilent env.now _ h.1
  · split
    · exact activeTimers_promptAIIfSilent env.now _ h.1
    · exact activeTimers_promptAIIfSilent env.now _ h.1

/-! ### Handler-level helper lemmas -/

theorem media_incoming_append (env : Env) (s : Session) (sid : String) (ts : Nat)
    (payload : String) (track chunk : Option String) (hopen : env.aiOpen = true) :
    (processTelephonyEvent env s
        (TelephonyEvent.media sid ts payload track chunk)).1.incomingAudioBuffer
      = s.incomingAudioBuffer ++ [payload] := by
  simp only [processTelephonyEvent, promptAIIfSilent, hopen, if_true]
  split <;> rfl

/-! ### The claims -/

/-- C2: for every input string, phone canonicalization returns `+1` followed
by the input's ten significant digits when the input's digit characters
number exactly 10, or exactly 11 with a leading 1; any other digit count
yields no canonical form. -/
theorem C2_phone_canonicalization (s : String) :
    ((s.data.filter Char.isDigit).length = 10 →
      standardizePhoneNumber s = some (String.mk ('+' :: '1' :: s.data.filter Char.isDigit))) ∧
    ((s.data.filter Char.isDigit).length = 11 →
      (s.data.filter Char.isDigit).head? = some '1' →
      standardizePhoneNumber s =
        some (String.mk ('+' :: '1' :: (s.data.filter Char.isDigit).tail))) ∧
    (¬((s.data.filter Char.isDigit).length = 10 ∨
        ((s.data.filter Char.isDigit).length = 11 ∧
          (s.data.filter Char.isDigit).head? = some '1')) →
      standardizePhoneNumber s = none) :=
  standardizePhoneNumber_spec s

theorem C2_phone_canonicalization_witness :
    standardizePhoneNumber "262-691-2510" = some "+12626912510" ∧
    standardizePhoneNumber "1 (262) 691-2510" = some "+12626912510" ∧
    standardizePhoneNumber "12345" = none := by
  refine ⟨?_, ?_, ?_⟩
  · have h := (C2_phone_canonicalization "262-691-2510").1 (by decide)
    rw [h]; decide
  · have h := (C2_phone_canonicalization "1 (262) 691-2510").2.1 (by decide) (by decide)
    rw [h]; decide
  · exact (C2_phone_canonicalization "12345").2.2 (by decide)

/-- C10: phone canonicalization is idempotent: whenever it returns a
canonical form, applying it to that form returns the same form. -/
theorem C10_phone_idempotent (s r : String)
    (h : standardizePhoneNumber s = some r) : standardizePhoneNumber r = some r :=
  standardizePhoneNumber_idem h

theorem C10_phone_idempotent_witness :
    standardizePhoneNumber "+12626912510" = some "+12626912510" :=
  C10_phone_idempotent "262-691-2510" "+12626912510" (by decide)

/-- C9: processing a `mark` event on an empty pending-marks queue raises no
error and leaves the whole session state unchanged (and emits no effect);
on a non-empty queue it removes exactly the front entry and changes nothing
else. -/
theorem C9_mark_event (env : Env) (s : Session) (sid : String) :
    (s.markQueue = [] →
      processTelephonyEvent env s (TelephonyEvent.mark sid) = (s, [])) ∧
    (∀ m rest, s.markQueue = m :: rest →
      processTelephonyEvent env s (TelephonyEvent.mark sid)
        = ({ s with markQueue := rest }, [])) := by
  constructor
  · intro h
    simp only [processTelephonyEvent]
    split
    · rfl
    · rename_i heq
      rw [h] at heq
      simp at heq
  · intro m rest h
    simp only [processTelephonyEvent]
    split
    · rename_i heq
      rw [h] at heq
      simp at heq
    · rename_i m2 rest2 heq
      rw [h] at heq
      injection heq with h1 h2
      rw [← h2]

theorem C9_mark_event_witness :
    processTelephonyEvent envOpen initialSession (TelephonyEvent.mark "S")
      = (initialSession, []) ∧
    processTelephonyEvent envOpen markSession (TelephonyEvent.mark "S")
      = ({ markSession with markQueue := [] }, []) :=
  ⟨(C9_mark_event envOpen initialSession "S").1 rfl,
   (C9_mark_event envOpen markSession "S").2 "responsePart" [] rfl⟩

/-- C7: a `start` event followed immediately by a `stop` event (no media and
no AI audio in between, so the accumulators are empty) saves no recording and
performs no transcription side effect. -/
theorem C7_start_stop_no_recording (env env2 : Env) (s : Session) (sid sid2 : String)
    (cn : Option String) :
    countRecordingEffects
        (processTelephonyEvent env s (TelephonyEvent.start sid cn)).2 = 0 ∧
    countRecordingEffects
        (processTelephonyEvent env2
          (processTelephonyEvent env s (TelephonyEvent.start sid cn)).1
          (TelephonyEvent.stop sid2)).2 = 0 := by
  constructor
  · rfl
  · simp only [processTelephonyEvent]
    split
    · rename_i hne
      exact absurd rfl hne
    · rfl

/-- C6: at most one silence timer is ever outstanding; every telephony event
preserves the timer discipline; the AI-side handler never touches the
timers; a media event cancels the prior timer and arms a fresh one due a
full timeout after `now`; and two rearms within the timeout window leave
exactly one armed timer, whose deadline is measured from the second rearm. -/
theorem C6_silence_timer (env env2 : Env) (s : Session) (h : silenceInv s) :
    (activeTimers s).length ≤ 1 ∧
    (∀ e : TelephonyEvent, silenceInv (processTelephonyEvent env s e).1) ∧
    (∀ e : OpenAiEvent, (processOpenAiEvent env s e).1.silenceTimers = s.silenceTimers) ∧
    (∀ sid ts payload track chunk,
      activeTimers (processTelephonyEvent env s
          (TelephonyEvent.media sid ts payload track chunk)).1
        = [⟨s.nextTimerId, env.now + silenceTimeoutMs, true⟩]) ∧
    (∀ sid ts payload track chunk sid2 ts2 payload2 track2 chunk2,
      env2.now < env.now + silenceTimeoutMs →
      ∃ tid, activeTimers (processTelephonyEvent env2
          (processTelephonyEvent env s (TelephonyEvent.media sid ts payload track chunk)).1
          (TelephonyEvent.media sid2 ts2 payload2 track2 chunk2)).1
        = [⟨tid, env2.now + silenceTimeoutMs, true⟩]) := by
  refine ⟨activeTimers_length_le_one s h,
    fun e => silenceInv_processTelephonyEvent env s e h, ?_,
    fun sid ts payload track chunk => activeTimers_media env s sid ts payload track chunk h,
    ?_⟩
  · intro e
    cases e with
    | textDelta delta =>
      simp only [processOpenAiEvent]
      split <;> rfl
    | contentDone => rfl
    | audioDelta delta itemId =>
      simp only [processOpenAiEvent]
      split
      · split <;> split <;> split <;> rfl
      · rfl
    | otherEvent => rfl
  · intro sid ts payload track chunk sid2 ts2 payload2 track2 chunk2 _hwin
    exact ⟨_, activeTimers_media env2 _ sid2 ts2 payload2 track2 chunk2
      (silenceInv_processTelephonyEvent env s _ h)⟩

theorem C6_silence_timer_witness :
    ∃ tid, activeTimers (processTelephonyEvent ⟨true, leadAll, 1500⟩
        (processTelephonyEvent envOpen initialSession
          (TelephonyEvent.media "S" 5 "QUJD" none none)).1
        (TelephonyEvent.media "S" 6 "RUZH" none none)).1
      = [⟨tid, 11500, true⟩] := by
  have h := (C6_silence_timer envOpen ⟨true, leadAll, 1500⟩ initialSession
    (by refine ⟨?_, ?_, ?_⟩ <;> simp [initialSession])).2.2.2.2
    "S" 5 "QUJD" none none "S" 6 "RUZH" none none (by decide)
  simpa using h

/-- C1 (amended): for a completed AI turn whose accumulated text contains
exactly one email-shaped substring and does not contain the literal
`email:` marker of the conversation-persistence path, the handler extracts
exactly that substring (first match wins) and triggers exactly one Lead
Store email-update call, for the session's customer identifier.  (Without
the marker proviso the conversation-persistence path inside
`addConversation` can issue a second email-update call — see the
counterexample.) -/
theorem C1_turn_complete_email (env : Env) (s : Session) (cn : String) (i len : Nat)
    (hcn : s.customerNumber = some cn)
    (huniq : emailOccurrences s.accumulatedText.data = [(i, len)])
    (hmark : strIncludes s.accumulatedText "email:" = false) :
    emailMatchJS s.accumulatedText
      = some (String.mk ((s.accumulatedText.data.drop i).take len)) ∧
    countEmailUpdates (processOpenAiEvent env s OpenAiEvent.contentDone).2 = 1 ∧
    Effect.updateLeadEmailCall cn (String.mk ((s.accumulatedText.data.drop i).take len))
      ∈ (processOpenAiEvent env s OpenAiEvent.contentDone).2 := by
  have hm := emailMatchJS_of_unique huniq
  have hconv := countEmailUpdates_addConversation_no_marker env.leadExists (some cn)
    s.accumulatedText true hmark
  refine ⟨hm, ?_, ?_⟩
  · simp only [processOpenAiEvent, hcn, hm]
    simp only [countEmailUpdates, List.countP_append, List.countP_cons] at hconv ⊢
    simp [isEmailUpdate, hconv]
  · simp only [processOpenAiEvent, hcn, hm]
    simp

theorem C1_turn_complete_email_witness :
    emailMatchJS "ok a@b.us" = some "a@b.us" ∧
    countEmailUpdates (processOpenAiEvent envOpen plainEmailSession
        OpenAiEvent.contentDone).2 = 1 ∧
    Effect.updateLeadEmailCall "+12626912510" "a@b.us"
      ∈ (processOpenAiEvent envOpen plainEmailSession OpenAiEvent.contentDone).2 := by
  have h := C1_turn_complete_email envOpen plainEmailSession "+12626912510" 3 6
    rfl (by decide) (by decide)
  simpa using h

/-- C1 counterexample: the accumulated text `"email: a@b.us"` contains
exactly one email-shaped substring, yet processing the turn issues two Lead
Store email-update calls (one from the handler's extraction, one from the
`email:` path inside `addConversation`), not exactly one. -/
theorem C1_two_email_updates :
    emailOccurrences ("email: a@b.us").data = [(7, 6)] ∧
    countEmailUpdates (processOpenAiEvent envOpen colonEmailSession
        OpenAiEvent.contentDone).2 = 2 := by
  decide

/-- C4 (amended): for a completed AI turn whose accumulated text contains no
email-shaped substring and also does not contain the literal `email:`
marker, no Lead Store email-update call occurs, on any path.  (Without the
marker proviso the conversation-persistence path can still issue an update —
see the counterexample.) -/
theorem C4_no_email_no_update (env : Env) (s : Session)
    (hnone : emailOccurrences s.accumulatedText.data = [])
    (hmark : strIncludes s.accumulatedText "email:" = false) :
    countEmailUpdates (processOpenAiEvent env s OpenAiEvent.contentDone).2 = 0 := by
  have hm := emailMatchJS_of_none hnone
  cases hcn : s.customerNumber with
  | none =>
    simp only [processOpenAiEvent, hcn]
    rfl
  | some cn =>
    have hconv := countEmailUpdates_addConversation_no_marker env.leadExists (some cn)
      s.accumulatedText true hmark
    simp only [processOpenAiEvent, hcn, hm]
    simp only [countEmailUpdates, List.countP_append, List.countP_cons] at hconv ⊢
    simp [isEmailUpdate, hconv]

theorem C4_no_email_no_update_witness :
    countEmailUpdates (processOpenAiEvent envOpen noEmailSession
        OpenAiEvent.contentDone).2 = 0 :=
  C4_no_email_no_update envOpen noEmailSession (by decide) (by decide)

/-- C4 counterexample: the accumulated text `"email: a@b"` contains no
email-shaped substring (the extraction regex requires a dotted top-level
label), yet the conversation-persistence path inside `addConversation`
issues one email-update call. -/
theorem C4_colon_path_update :
    emailOccurrences ("email: a@b").data = [] ∧
    countEmailUpdates (processOpenAiEvent envOpen colonBareSession
        OpenAiEvent.contentDone).2 = 1 := by
  decide

/-- C8 (amended): for every media event in a session with a known customer
identifier, the handler does invoke the conversation-entry operation with
the placeholder content flagged user-authored, but the Lead Store drops
placeholder user-audio entries, so no conversation row is inserted. -/
theorem C8_media_placeholder_entry (env : Env) (s : Session) (sid : String) (ts : Nat)
    (payload : String) (track chunk : Option String) (cn : String)
    (h : s.customerNumber = some cn) :
    Effect.addConversationCall (some cn) "User audio received" false ∈
      (processTelephonyEvent env s (TelephonyEvent.media sid ts payload track chunk)).2 ∧
    countInserts (processTelephonyEvent env s
        (TelephonyEvent.media sid ts payload track chunk)).2 = 0 := by
  constructor <;>
    cases hopen : env.aiOpen <;>
      by_cases htc : track = some "inbound" ∧ chunk = some "end" <;>
        simp [processTelephonyEvent, addConversationEffects_user_audio, h, hopen, htc,
          countInserts, isInsertConv]

theorem C8_media_placeholder_entry_witness :
    Effect.addConversationCall (some "+12626912510") "User audio received" false ∈
      (processTelephonyEvent envOpen mediaStartedSession
        (TelephonyEvent.media "S1" 5 "QUJD" (some "inbound") none)).2 ∧
    countInserts (processTelephonyEvent envOpen mediaStartedSession
        (TelephonyEvent.media "S1" 5 "QUJD" (some "inbound") none)).2 = 0 :=
  C8_media_placeholder_entry envOpen mediaStartedSession "S1" 5 "QUJD"
    (some "inbound") none "+12626912510" rfl

/-- C8 counterexample: a media event in a session whose customer identifier
is known and whose lead exists records no conversation entry at all — the
store filters the placeholder out, so the history gains no row. -/
theorem C8_no_entry_recorded :
    mediaStartedSession.customerNumber = some "+12626912510" ∧
    leadAll "+12626912510" = true ∧
    countInserts (processTelephonyEvent envOpen mediaStartedSession
        (TelephonyEvent.media "S1" 5 "QUJD" (some "inbound") none)).2 = 0 := by
  decide

/-- C5 (amended): for every media event, `latestMediaTimestamp` is updated
to the event's timestamp unconditionally, but the payload is appended to
`incomingAudio` (and forwarded as an audio-append command) only when the AI
connection is open, and the end-of-speech signal is sent exactly when the AI
connection is open and the chunk is flagged as the end of an inbound
utterance. -/
theorem C5_media_event (env : Env) (s : Session) (sid : String) (ts : Nat)
    (payload : String) (track chunk : Option String) :
    (processTelephonyEvent env s
        (TelephonyEvent.media sid ts payload track chunk)).1.latestMediaTimestamp = ts ∧
    (env.aiOpen = true →
      (processTelephonyEvent env s
          (TelephonyEvent.media sid ts payload track chunk)).1.incomingAudioBuffer
        = s.incomingAudioBuffer ++ [payload] ∧
      Effect.aiSend (AiMsg.audioAppend payload) ∈
        (processTelephonyEvent env s (TelephonyEvent.media sid ts payload track chunk)).2) ∧
    (env.aiOpen = false →
      (processTelephonyEvent env s
          (TelephonyEvent.media sid ts payload track chunk)).1.incomingAudioBuffer
        = s.incomingAudioBuffer ∧
      Effect.aiSend (AiMsg.audioAppend payload) ∉
        (processTelephonyEvent env s (TelephonyEvent.media sid ts payload track chunk)).2) ∧
    (Effect.aiSend AiMsg.speechStopped ∈
        (processTelephonyEvent env s (TelephonyEvent.media sid ts payload track chunk)).2 ↔
      env.aiOpen = true ∧ track = some "inbound" ∧ chunk = some "end") := by
  refine ⟨?_, ?_, ?_, ?_⟩ <;>
    cases hopen : env.aiOpen <;>
      by_cases htc : track = some "inbound" ∧ chunk = some "end" <;>
        simp [processTelephonyEvent, promptAIIfSilent, addConversationEffects_user_audio,
          hopen, htc, apply_ite]

theorem C5_media_event_witness :
    (processTelephonyEvent envOpen mediaStartedSession
        (TelephonyEvent.media "S1" 5 "QUJD" (some "inbound") none)).1.latestMediaTimestamp
      = 5 ∧
    ((processTelephonyEvent envOpen mediaStartedSession
          (TelephonyEvent.media "S1" 5 "QUJD" (some "inbound") none)).1.incomingAudioBuffer
        = mediaStartedSession.incomingAudioBuffer ++ ["QUJD"] ∧
      Effect.aiSend (AiMsg.audioAppend "QUJD") ∈
        (processTelephonyEvent envOpen mediaStartedSession
          (TelephonyEvent.media "S1" 5 "QUJD" (some "inbound") none)).2) := by
  have h := C5_media_event envOpen mediaStartedSession "S1" 5 "QUJD" (some "inbound") none
  exact ⟨h.1, h.2.1 rfl⟩

/-- C5 counterexample: when the AI connection is not open, a media event in
an active session updates the timestamp but does not append the payload to
the incoming accumulator, contradicting the claim's "unconditionally". -/
theorem C5_append_conditional :
    (processTelephonyEvent envClosed mediaStartedSession
        (TelephonyEvent.media "S1" 5 "QUJD" none none)).1.latestMediaTimestamp = 5 ∧
    (processTelephonyEvent envClosed mediaStartedSession
        (TelephonyEvent.media "S1" 5 "QUJD" none none)).1.incomingAudioBuffer ≠
      mediaStartedSession.incomingAudioBuffer ++ ["QUJD"] := by
  decide

/-- C3 (amended): after a `stop` event the outgoing accumulator is empty,
but the incoming accumulator and the silence timer are left untouched, and a
subsequent media event for the same stream identifier (with the AI
connection open) appends to the pre-stop incoming buffer contents. -/
theorem C3_stop_event (env env2 : Env) (s : Session) (sid sid2 : String) (ts : Nat)
    (payload : String) (track chunk : Option String) :
    (processTelephonyEvent env s (TelephonyEvent.stop sid)).1.outgoingAudioBuffer = [] ∧
    (processTelephonyEvent env s (TelephonyEvent.stop sid)).1.incomingAudioBuffer
      = s.incomingAudioBuffer ∧
    (processTelephonyEvent env s (TelephonyEvent.stop sid)).1.silenceTimers
      = s.silenceTimers ∧
    (processTelephonyEvent env s (TelephonyEvent.stop sid)).1.silenceHandle
      = s.silenceHandle ∧
    (env2.aiOpen = true →
      (processTelephonyEvent env2
          (processTelephonyEvent env s (TelephonyEvent.stop sid)).1
          (TelephonyEvent.media sid2 ts payload track chunk)).1.incomingAudioBuffer
        = s.incomingAudioBuffer ++ [payload]) := by
  have hout : (processTelephonyEvent env s
      (TelephonyEvent.stop sid)).1.outgoingAudioBuffer = [] := by
    simp only [processTelephonyEvent]
    split
    · rfl
    · rename_i hne
      exact not_not.mp hne
  have hin : (processTelephonyEvent env s
      (TelephonyEvent.stop sid)).1.incomingAudioBuffer = s.incomingAudioBuffer := by
    simp only [processTelephonyEvent]
    split <;> rfl
  refine ⟨hout, hin, ?_, ?_, ?_⟩
  · simp only [processTelephonyEvent]
    split <;> rfl
  · simp only [processTelephonyEvent]
    split <;> rfl
  · intro hopen
    rw [media_incoming_append env2 _ sid2 ts payload track chunk hopen, hin]

theorem C3_stop_event_witness :
    postStopSession.outgoingAudioBuffer = [] ∧
    postStopSession.incomingAudioBuffer = preStopSession.incomingAudioBuffer ∧
    (processTelephonyEvent envOpen postStopSession
        (TelephonyEvent.media "S1" 6 "RUZH" (some "inbound") none)).1.incomingAudioBuffer
      = preStopSession.incomingAudioBuffer ++ ["RUZH"] := by
  have h := C3_stop_event envOpen envOpen preStopSession "S1" "S1" 6 "RUZH"
    (some "inbound") none
  exact ⟨h.1, h.2.1, h.2.2.2.2 rfl⟩

/-- C3 counterexample: after `stop`, the incoming accumulator still holds
the pre-stop audio, the silence timer is still armed, and a subsequent media
event for the same stream identifier appends to the stale pre-stop buffer. -/
theorem C3_stale_buffer :
    postStopSession.incomingAudioBuffer = ["QUJD"] ∧
    activeTimers postStopSession = [⟨0, 11000, true⟩] ∧
    (processTelephonyEvent envOpen postStopSession
        (TelephonyEvent.media "S1" 6 "RUZH" (some "inbound") none)).1.incomingAudioBuffer
      = ["QUJD", "RUZH"] := by
  decide

end VoiceBridge
